import Mathlib

/-!
Verification of the habit-forge-lite core (`src/index.jsx`).

The app keeps, per user, a list of habits; each habit record holds a
`completions` object mapping "YYYY-MM-DD" date keys to `true`.  We embed the
data model and the operations (`createHabit`, `toggleCompletion`, the
`AddHabitForm.handleSubmit` guard, the `HabitItem` derived reads) as pure Lean
functions.  JavaScript objects used as string-keyed maps are embedded as
association lists with JS object semantics: reading an absent key is falsy,
assignment updates the entry in place or appends, `delete` removes the key.
-/

set_option autoImplicit false

namespace HabitForge

/-- `const HABIT_LIMIT = 3;` (index.jsx line 35). -/
def HABIT_LIMIT : Nat := 3

/-- A habit record as stored per user: Firestore document id plus the fields
written by `createHabit` (`name`, `createdAt`, `order`, `completions`).
`completions` embeds the JS object `{ "YYYY-MM-DD": true }` as an association
list from date key to stored boolean. -/
structure Habit where
  id : String
  name : String
  createdAt : String
  order : Nat
  completions : List (String × Bool)
deriving Repr, DecidableEq

/-- JS whitespace, as far as the habit names in play go. -/
def jsWhitespace (c : Char) : Bool := c = ' ' || c = '\t' || c = '\n' || c = '\r'

/-- `String.prototype.trim()`: strip leading and trailing whitespace. -/
def trimChars (l : List Char) : List Char :=
  ((l.dropWhile jsWhitespace).reverse.dropWhile jsWhitespace).reverse

/-- `name.trim()` on the embedded string. -/
def jsTrim (s : String) : String := ⟨trimChars s.data⟩

/-- JS `<` on strings: lexicographic comparison by code unit (our date keys
are ASCII, so code-unit order is code-point order). -/
def charListLt : List Char → List Char → Bool
  | [], [] => false
  | [], _ :: _ => true
  | _ :: _, [] => false
  | a :: as, b :: bs =>
      if a < b then true else if b < a then false else charListLt as bs

/-- `s < t` on JS strings. -/
def jsLt (s t : String) : Bool := charListLt s.data t.data

/-- JS object read `m[k]`: value of the first entry with key `k`, if any. -/
def objGet (k : String) : List (String × Bool) → Option Bool
  | [] => none
  | p :: ps => if p.1 = k then some p.2 else objGet k ps

/-- JS object assignment `m[k] = v`: update the entry for `k` in place, or
append a new entry. -/
def objSet (k : String) (v : Bool) : List (String × Bool) → List (String × Bool)
  | [] => [(k, v)]
  | p :: ps => if p.1 = k then (k, v) :: ps else p :: objSet k v ps

/-- JS `delete m[k]`: remove the entry (entries) with key `k`. -/
def objDelete (k : String) : List (String × Bool) → List (String × Bool)
  | [] => []
  | p :: ps => if p.1 = k then objDelete k ps else p :: objDelete k ps

/-- `createHabit` (index.jsx lines 140-154): the document written for a new
habit — given name, `createdAt` = the current time, the given `order`, and
`completions: {}`.  The Firestore document id (`crypto.randomUUID()` in the
source) is passed in as `id`. -/
def createHabit (id createdAt name : String) (order : Nat) : Habit :=
  { id := id, name := name, createdAt := createdAt, order := order,
    completions := [] }

/-- The derived read `habit.completions && habit.completions[date]` under JS
truthiness (index.jsx lines 171 and 287): true iff the record stores a truthy
value on that date key.  This is the spec's `completionStatusFor`. -/
def completionStatusFor (h : Habit) (date : String) : Bool :=
  (objGet date h.completions).getD false

/-- `toggleCompletion` (index.jsx lines 167-188), state transition on the
habit record.  The source always reads `today = getToday()`; we pass that
date in.  If today's key is truthy it is deleted, otherwise it is set to
`true`; the update writes only the `completions` field. -/
def toggleCompletion (today : String) (h : Habit) : Habit :=
  { h with completions :=
      if completionStatusFor h today then objDelete today h.completions
      else objSet today true h.completions }

/-- `AddHabitForm.handleSubmit` (index.jsx lines 355-362) acting on the habit
list: create only when `name.trim()` is truthy (non-empty) and
`habitsCount < HABIT_LIMIT`; the new habit gets the trimmed name and
`order = habitsCount`, and joins the collection (the snapshot listener sorts
by `order`, so it lands at the end). -/
def handleSubmit (habits : List Habit) (name freshId now : String) : List Habit :=
  if jsTrim name ≠ "" ∧ habits.length < HABIT_LIMIT then
    habits ++ [createHabit freshId now (jsTrim name) habits.length]
  else habits

/-- `const maxedOut = habitsCount >= HABIT_LIMIT;` (index.jsx line 353):
when true, `AddHabitForm` renders the "Limit reached" banner instead of the
form. -/
def maxedOut (habitsCount : Nat) : Bool := habitsCount ≥ HABIT_LIMIT

/-- `const isFutureDate = selectedDate > getToday();` (index.jsx line 290),
lexicographic string comparison of "YYYY-MM-DD" keys. -/
def isFutureDate (selectedDate today : String) : Bool := jsLt today selectedDate

/-- `const isSelectedDateToday = selectedDate === getToday();`
(index.jsx line 435, computed in `App` and passed to `HabitItem`). -/
def isSelectedDateToday (selectedDate today : String) : Bool :=
  selectedDate == today

/-- `const isEditable = isSelectedDateToday && !isFutureDate;`
(index.jsx line 291). -/
def isEditable (selectedDate today : String) : Bool :=
  isSelectedDateToday selectedDate today && !(isFutureDate selectedDate today)

/-- `disabled={isFutureDate || !isEditable}` on the toggle button
(index.jsx line 330). -/
def toggleDisabled (selectedDate today : String) : Bool :=
  isFutureDate selectedDate today || !(isEditable selectedDate today)

/-- `HabitItem.handleToggle` (index.jsx lines 301-306): invoke
`toggleCompletion` only when `isEditable`, otherwise do nothing. -/
def handleToggle (selectedDate today : String) (h : Habit) : Habit :=
  if isEditable selectedDate today then toggleCompletion today h else h

/-- Outcome of a delegated Firestore write, seen from the core. -/
inductive WriteOutcome where
  | ok
  | err (msg : String)
deriving Repr, DecidableEq

/-- What one data-management action makes observable: the value returned to
the caller (`none` = JS `undefined`), the console-error log, and whether an
exception escaped to the caller. -/
structure OpResult where
  returned : Option String
  consoleErrors : List String
  threw : Bool
deriving Repr, DecidableEq

/-- `createHabit`'s control flow around failure (index.jsx lines 140-154):
guard clause logs "Database not ready." and returns; the delegated write is
wrapped in try/catch whose catch only logs.  Every path returns `undefined`
and no exception escapes. -/
def createHabitOp (dbReady : Bool) (write : WriteOutcome) : OpResult :=
  if !dbReady then
    { returned := none, consoleErrors := ["Database not ready."], threw := false }
  else
    match write with
    | .err e =>
        { returned := none, consoleErrors := ["Error creating habit: " ++ e],
          threw := false }
    | .ok => { returned := none, consoleErrors := [], threw := false }

/-- `deleteHabit`'s control flow around failure (index.jsx lines 156-165). -/
def deleteHabitOp (dbReady : Bool) (write : WriteOutcome) : OpResult :=
  if !dbReady then
    { returned := none, consoleErrors := ["Database not ready."], threw := false }
  else
    match write with
    | .err e =>
        { returned := none, consoleErrors := ["Error deleting habit: " ++ e],
          threw := false }
    | .ok => { returned := none, consoleErrors := [], threw := false }

/-- `toggleCompletion`'s control flow around failure (index.jsx lines
167-188). -/
def toggleCompletionOp (dbReady : Bool) (write : WriteOutcome) : OpResult :=
  if !dbReady then
    { returned := none, consoleErrors := ["Database not ready."], threw := false }
  else
    match write with
    | .err e =>
        { returned := none, consoleErrors := ["Error toggling completion: " ++ e],
          threw := false }
    | .ok => { returned := none, consoleErrors := [], threw := false }

/-- A calendar date, for the streak reference computation. -/
structure CalDate where
  year : Nat
  month : Nat
  day : Nat
deriving Repr, DecidableEq

/-- Gregorian leap year. -/
def isLeapYear (y : Nat) : Bool :=
  (y % 4 == 0 && y % 100 != 0) || y % 400 == 0

/-- Days in a Gregorian month. -/
def daysInMonth (y m : Nat) : Nat :=
  if m == 2 then (if isLeapYear y then 29 else 28)
  else if m == 4 || m == 6 || m == 9 || m == 11 then 30
  else 31

/-- The previous calendar day. -/
def prevDay (d : CalDate) : CalDate :=
  if d.day > 1 then { d with day := d.day - 1 }
  else if d.month > 1 then
    { year := d.year, month := d.month - 1, day := daysInMonth d.year (d.month - 1) }
  else { year := d.year - 1, month := 12, day := 31 }

/-- Zero-padded two-digit rendering of a month or day number. -/
def pad2 (n : Nat) : String :=
  if n < 10 then "0" ++ toString n else toString n

/-- The "YYYY-MM-DD" key of a calendar date, as produced by
`toISOString().split(T)[0]` in `getToday` (index.jsx lines 43-48). -/
def toKey (d : CalDate) : String :=
  toString d.year ++ "-" ++ pad2 d.month ++ "-" ++ pad2 d.day

/-- Walk backward one day at a time while the date is marked complete,
counting; fuel bounds the walk by the number of completion entries. -/
def streakAux (h : Habit) : CalDate → Nat → Nat
  | _, 0 => 0
  | d, fuel + 1 =>
      if completionStatusFor h (toKey d) then 1 + streakAux h (prevDay d) fuel
      else 0

/-- Modelled from the spec: the repository has no streak computation (no
`streak` field is written and no variant of `currentStreak` appears in the
source), so this follows the spec's reference definition verbatim: "count
backward from today, inclusive, while each day is marked complete, stop at
first gap".  A fuel of `h.completions.length` suffices, since each counted
day consumes a distinct completion entry. -/
def currentStreak (h : Habit) (today : CalDate) : Nat :=
  streakAux h today h.completions.length

/-- Example habit of the spec's streak-continuity scenario: completions on
2024-01-01, 2024-01-02 and 2024-01-03, built with the source's operations. -/
def streakHabitA : Habit :=
  toggleCompletion "2024-01-03" (toggleCompletion "2024-01-02"
    (toggleCompletion "2024-01-01"
      (createHabit "hA" "2024-01-01T00:00:00.000Z" "Read" 0)))

/-- Example habit of the spec's gap scenario: completions on 2024-01-01 and
2024-01-03 only (2024-01-02 missing). -/
def streakHabitB : Habit :=
  toggleCompletion "2024-01-03" (toggleCompletion "2024-01-01"
    (createHabit "hB" "2024-01-01T00:00:00.000Z" "Read" 0))

/-- A full habit list: three habits, the free-tier limit. -/
def threeHabits : List Habit :=
  [createHabit "id-a" "t0" "A" 0, createHabit "id-b" "t1" "B" 1,
   createHabit "id-c" "t2" "C" 2]

/-- A habit with completions on 2024-01-01 and 2024-01-02, built with the
source's operations. -/
def invHabit : Habit :=
  toggleCompletion "2024-01-02" (toggleCompletion "2024-01-01"
    (createHabit "hI" "2024-01-01T00:00:00.000Z" "Jog" 0))

/-! ### Lemmas on the JS-object embedding -/

theorem objGet_objDelete_self (k : String) (m : List (String × Bool)) :
    objGet k (objDelete k m) = none := by
  induction m with
  | nil => rfl
  | cons p ps ih =>
      by_cases hp : p.1 = k
      · simpa [objDelete, hp] using ih
      · simp [objDelete, hp, objGet, ih]

theorem objGet_objDelete_ne (k d : String) (m : List (String × Bool))
    (hdk : d ≠ k) : objGet d (objDelete k m) = objGet d m := by
  induction m with
  | nil => rfl
  | cons p ps ih =>
      by_cases hp : p.1 = k
      · have hkd : ¬ k = d := fun hc => hdk hc.symm
        have hpd : ¬ p.1 = d := by
          rw [hp]
          exact hkd
        simp [objDelete, hp, objGet, hpd, hkd, ih]
      · simp [objDelete, hp, objGet, ih]

theorem objGet_objSet_self (k : String) (v : Bool) (m : List (String × Bool)) :
    objGet k (objSet k v m) = some v := by
  induction m with
  | nil => simp [objSet, objGet]
  | cons p ps ih =>
      by_cases hp : p.1 = k
      · simp [objSet, hp, objGet]
      · simp [objSet, hp, objGet, ih]

theorem objGet_objSet_ne (k d : String) (v : Bool) (m : List (String × Bool))
    (hdk : d ≠ k) : objGet d (objSet k v m) = objGet d m := by
  have hkd : ¬ k = d := fun hc => hdk hc.symm
  induction m with
  | nil => simp [objSet, objGet, hkd]
  | cons p ps ih =>
      by_cases hp : p.1 = k
      · have hpd : ¬ p.1 = d := by
          rw [hp]
          exact hkd
        simp [objSet, hp, objGet, hkd, hpd]
      · simp [objSet, hp, objGet, ih]

theorem mem_objDelete (k : String) (m : List (String × Bool))
    (p : String × Bool) (hp : p ∈ objDelete k m) : p ∈ m ∧ p.1 ≠ k := by
  induction m with
  | nil => cases hp
  | cons q qs ih =>
      by_cases hq : q.1 = k
      · rw [objDelete, if_pos hq] at hp
        exact ⟨List.mem_cons_of_mem q (ih hp).1, (ih hp).2⟩
      · rw [objDelete, if_neg hq] at hp
        rcases List.mem_cons.mp hp with hpq | hpm
        · exact ⟨hpq ▸ List.mem_cons_self q qs, hpq ▸ hq⟩
        · exact ⟨List.mem_cons_of_mem q (ih hpm).1, (ih hpm).2⟩

theorem mem_objSet (k : String) (v : Bool) (m : List (String × Bool))
    (p : String × Bool) (hp : p ∈ objSet k v m) : p = (k, v) ∨ p ∈ m := by
  induction m with
  | nil => simpa [objSet] using hp
  | cons q qs ih =>
      by_cases hq : q.1 = k
      · rw [objSet, if_pos hq] at hp
        rcases List.mem_cons.mp hp with hpq | hpm
        · exact Or.inl hpq
        · exact Or.inr (List.mem_cons_of_mem q hpm)
      · rw [objSet, if_neg hq] at hp
        rcases List.mem_cons.mp hp with hpq | hpm
        · exact Or.inr (hpq ▸ List.mem_cons_self q qs)
        · rcases ih hpm with h | h
          · exact Or.inl h
          · exact Or.inr (List.mem_cons_of_mem q h)

theorem objGet_mem (k : String) (m : List (String × Bool)) (b : Bool)
    (h : objGet k m = some b) : (k, b) ∈ m := by
  induction m with
  | nil => cases h
  | cons p ps ih =>
      by_cases hp : p.1 = k
      · rw [objGet, if_pos hp] at h
        have : p = (k, b) := by
          cases p
          cases h
          simpa using hp
        exact this ▸ List.mem_cons_self p ps
      · rw [objGet, if_neg hp] at h
        exact List.mem_cons_of_mem p (ih h)

theorem objGet_eq_none (k : String) (m : List (String × Bool))
    (h : ∀ p ∈ m, p.1 ≠ k) : objGet k m = none := by
  induction m with
  | nil => rfl
  | cons p ps ih =>
      rw [objGet, if_neg (h p (List.mem_cons_self p ps))]
      exact ih fun q hq => h q (List.mem_cons_of_mem p hq)

theorem objGet_isSome_of_mem (m : List (String × Bool)) (p : String × Bool)
    (hp : p ∈ m) : objGet p.1 m ≠ none := by
  induction m with
  | nil => cases hp
  | cons q qs ih =>
      rcases List.mem_cons.mp hp with hpq | hpm
      · subst hpq
        simp [objGet]
      · by_cases hq : q.1 = p.1
        · simp [objGet, hq]
        · rw [objGet, if_neg hq]
          exact ih hpm

theorem charListLt_irrefl (l : List Char) : charListLt l l = false := by
  induction l with
  | nil => rfl
  | cons a as ih => simp [charListLt, lt_irrefl, ih]

theorem jsLt_irrefl (s : String) : jsLt s s = false :=
  charListLt_irrefl s.data

/-! ### Lemmas on `toggleCompletion` -/

/-- A toggle flips the completion status of the toggled date. -/
theorem status_toggle_self (today : String) (h : Habit) :
    completionStatusFor (toggleCompletion today h) today
      = !(completionStatusFor h today) := by
  cases hc : completionStatusFor h today with
  | true =>
      simp only [toggleCompletion, hc]
      simp [completionStatusFor, objGet_objDelete_self]
  | false =>
      simp only [toggleCompletion, hc]
      simp [completionStatusFor, objGet_objSet_self]

/-- A toggle leaves every other date's completion status alone. -/
theorem status_toggle_ne (today d : String) (h : Habit) (hd : d ≠ today) :
    completionStatusFor (toggleCompletion today h) d = completionStatusFor h d := by
  cases hc : completionStatusFor h today with
  | true =>
      simp only [toggleCompletion, hc]
      simp [completionStatusFor, objGet_objDelete_ne today d _ hd]
  | false =>
      simp only [toggleCompletion, hc]
      simp [completionStatusFor, objGet_objSet_ne today d true _ hd]

/-! ### Claim theorems -/

/-- C1: for every habit count `n`, submitting a non-empty trimmed name when
`n < 3` creates a habit and the count becomes `n + 1`; when `n ≥ 3` the
submission performs no mutation and `maxedOut` holds, so the "Limit reached"
banner is shown. -/
theorem create_respects_habit_limit (habits : List Habit)
    (name freshId now : String) (hname : jsTrim name ≠ "") :
    (habits.length < HABIT_LIMIT →
      (handleSubmit habits name freshId now).length = habits.length + 1)
    ∧ (HABIT_LIMIT ≤ habits.length →
      handleSubmit habits name freshId now = habits
        ∧ maxedOut habits.length = true) := by
  constructor
  · intro hlt
    simp [handleSubmit, hname, hlt]
  · intro hge
    have hnlt : ¬ habits.length < HABIT_LIMIT := Nat.not_lt.mpr hge
    refine ⟨by simp [handleSubmit, hnlt], ?_⟩
    simp [maxedOut, hge]

/-- C1 witness: at count 0 a create succeeds and yields count 1; at count 3
the submission is a no-op and the limit banner shows. -/
theorem create_respects_habit_limit_witness :
    (handleSubmit [] "Read" "id-1" "2024-01-05T00:00:00.000Z").length = 0 + 1
    ∧ (handleSubmit threeHabits "Read" "id-4" "2024-01-05T00:00:00.000Z"
          = threeHabits
        ∧ maxedOut threeHabits.length = true) :=
  ⟨(create_respects_habit_limit [] "Read" "id-1" "2024-01-05T00:00:00.000Z"
      (by decide)).1 (by decide),
   (create_respects_habit_limit threeHabits "Read" "id-4"
      "2024-01-05T00:00:00.000Z" (by decide)).2 (by decide)⟩

/-- C2: a name that is empty after trimming makes the submission a no-op —
the habit list (hence the count) is unchanged, whatever the current count. -/
theorem empty_name_create_noop (habits : List Habit) (name freshId now : String)
    (hname : jsTrim name = "") : handleSubmit habits name freshId now = habits := by
  simp [handleSubmit, hname]

/-- C2 witness: submitting the all-whitespace name on a one-habit list leaves
the list unchanged. -/
theorem empty_name_create_noop_witness :
    handleSubmit [createHabit "id-a" "t0" "Water" 0] "   " "id-b" "t1"
      = [createHabit "id-a" "t0" "Water" 0] :=
  empty_name_create_noop [createHabit "id-a" "t0" "Water" 0] "   " "id-b" "t1"
    (by decide)

/-- C3: toggling the same date twice restores the completion status of that
date to its value before the first toggle (Contract B idempotence). -/
theorem toggle_twice_restores_status (h : Habit) (d : String) :
    completionStatusFor (toggleCompletion d (toggleCompletion d h)) d
      = completionStatusFor h d := by
  rw [status_toggle_self, status_toggle_self, Bool.not_not]

/-- C5: a successful create yields a habit carrying the supplied fresh id,
`createdAt` equal to the current time, no completions recorded (every date
reads back `false`), and streak 0 for every "today". -/
theorem createHabit_initial_state (freshId now name : String) (order : Nat) :
    (createHabit freshId now name order).id = freshId
    ∧ (createHabit freshId now name order).createdAt = now
    ∧ (createHabit freshId now name order).name = name
    ∧ (createHabit freshId now name order).completions = []
    ∧ (∀ d, completionStatusFor (createHabit freshId now name order) d = false)
    ∧ (∀ today, currentStreak (createHabit freshId now name order) today = 0) :=
  ⟨rfl, rfl, rfl, rfl, fun _ => rfl, fun _ => rfl⟩

/-- C7: a toggle changes only the `completions` field — id, name, createdAt
and order are untouched. -/
theorem toggle_frame (today : String) (h : Habit) :
    (toggleCompletion today h).id = h.id
    ∧ (toggleCompletion today h).name = h.name
    ∧ (toggleCompletion today h).createdAt = h.createdAt
    ∧ (toggleCompletion today h).order = h.order :=
  ⟨rfl, rfl, rfl, rfl⟩

/-- When today is not completed, the backward count stops immediately. -/
theorem currentStreak_eq_zero_of_not_completed (h : Habit) (today : CalDate)
    (hs : completionStatusFor h (toKey today) = false) :
    currentStreak h today = 0 := by
  unfold currentStreak
  cases h.completions.length with
  | zero => rfl
  | succ n => simp [streakAux, hs]

/-- When today is completed, the backward count is positive. -/
theorem currentStreak_ne_zero_of_completed (h : Habit) (today : CalDate)
    (hs : completionStatusFor h (toKey today) = true) :
    currentStreak h today ≠ 0 := by
  have hob : objGet (toKey today) h.completions = some true := by
    unfold completionStatusFor at hs
    cases ho : objGet (toKey today) h.completions with
    | none => rw [ho] at hs; cases hs
    | some b => rw [ho] at hs; simp at hs; rw [hs]
  have hmem := objGet_mem _ _ _ hob
  have hne : h.completions ≠ [] := by
    intro hnil
    rw [hnil] at hmem
    cases hmem
  unfold currentStreak
  cases hl : h.completions.length with
  | zero => exact absurd (List.length_eq_zero.mp hl) hne
  | succ n =>
      simp only [streakAux, hs, if_true]
      omega

/-- C4: `currentStreak` is the spec's reference backward count — zero exactly
when today is not completed — and on the spec's scenarios (habits built by
the source's toggle operation): completions on 2024-01-01, 2024-01-02 and
2024-01-03 with today 2024-01-03 give streak 3; completions on 2024-01-01 and
2024-01-03 with 2024-01-02 missing give streak 1. -/
theorem currentStreak_reference :
    (∀ (h : Habit) (today : CalDate),
        currentStreak h today = 0
          ↔ completionStatusFor h (toKey today) = false)
    ∧ currentStreak streakHabitA ⟨2024, 1, 3⟩ = 3
    ∧ currentStreak streakHabitB ⟨2024, 1, 3⟩ = 1 := by
  refine ⟨fun h today => ⟨fun h0 => ?_, currentStreak_eq_zero_of_not_completed h today⟩,
    by decide, by decide⟩
  cases hb : completionStatusFor h (toKey today) with
  | false => rfl
  | true => exact absurd h0 (currentStreak_ne_zero_of_completed h today hb)

/-- C6: `completionStatusFor` is a pure read — true exactly when the record
stores `true` on the date key — and for a selected date strictly after today
(given the record holds no key after today) the read is false, the date is
not editable, and the toggle button is disabled. -/
theorem completion_status_pure_and_future :
    (∀ (h : Habit) (d : String),
        completionStatusFor h d = true ↔ objGet d h.completions = some true)
    ∧ (∀ (h : Habit) (selectedDate today : String),
        (∀ p ∈ h.completions, jsLt today p.1 = false) →
        jsLt today selectedDate = true →
        completionStatusFor h selectedDate = false
        ∧ isEditable selectedDate today = false
        ∧ toggleDisabled selectedDate today = true) := by
  constructor
  · intro h d
    unfold completionStatusFor
    cases ho : objGet d h.completions with
    | none => simp
    | some b => cases b <;> simp
  · intro h sel today hpast hfut
    have hkeys : ∀ p ∈ h.completions, p.1 ≠ sel := by
      intro p hp hc
      have hpf := hpast p hp
      rw [hc, hfut] at hpf
      exact Bool.noConfusion hpf
    have hst : sel ≠ today := by
      intro hc
      rw [hc, jsLt_irrefl] at hfut
      exact Bool.noConfusion hfut
    refine ⟨?_, ?_, ?_⟩
    · unfold completionStatusFor
      rw [objGet_eq_none sel h.completions hkeys]
      rfl
    · simp [isEditable, isSelectedDateToday, hst]
    · simp [toggleDisabled, isFutureDate, hfut]

/-- C6 witness: a habit completed on 2024-01-01 and 2024-01-02 reads false on
the future date 2024-01-04 when today is 2024-01-03, and that date is neither
editable nor togglable. -/
theorem completion_status_pure_and_future_witness :
    completionStatusFor invHabit "2024-01-04" = false
    ∧ isEditable "2024-01-04" "2024-01-03" = false
    ∧ toggleDisabled "2024-01-04" "2024-01-03" = true :=
  completion_status_pure_and_future.2 invHabit "2024-01-04" "2024-01-03"
    (by decide) (by decide)

/-- C8 counterexample: when the delegated write fails, the caller receives
exactly what it receives on success (`undefined`, no exception); the failure
is only logged to the console, so no typed result or error value surfaces to
the caller. -/
theorem failure_not_surfaced_counterexample :
    (createHabitOp true (.err "backend unavailable")).returned
        = (createHabitOp true .ok).returned
    ∧ (createHabitOp true (.err "backend unavailable")).threw = false
    ∧ (createHabitOp true (.err "backend unavailable")).consoleErrors
        = ["Error creating habit: backend unavailable"] :=
  ⟨rfl, rfl, rfl⟩

/-- C8 (amended): every failing operation (create, delete, toggle) is caught
and logged to the console; the caller always receives `undefined` — never a
typed result or error value — and no exception escapes, so the core never
terminates the process or session on a failed operation. -/
theorem failures_logged_not_thrown (dbReady : Bool) (write : WriteOutcome) :
    ((createHabitOp dbReady write).threw = false
      ∧ (createHabitOp dbReady write).returned = none)
    ∧ ((deleteHabitOp dbReady write).threw = false
      ∧ (deleteHabitOp dbReady write).returned = none)
    ∧ ((toggleCompletionOp dbReady write).threw = false
      ∧ (toggleCompletionOp dbReady write).returned = none)
    ∧ (∀ e, write = .err e →
        (createHabitOp dbReady write).consoleErrors ≠ []
        ∧ (deleteHabitOp dbReady write).consoleErrors ≠ []
        ∧ (toggleCompletionOp dbReady write).consoleErrors ≠ []) := by
  cases dbReady <;> cases write <;>
    simp [createHabitOp, deleteHabitOp, toggleCompletionOp]

/-- C8 witness: a concrete failing write is logged on all three operations
and throws on none of them. -/
theorem failures_logged_not_thrown_witness :
    (createHabitOp true (.err "network")).threw = false
    ∧ (createHabitOp true (.err "network")).consoleErrors ≠ []
    ∧ (deleteHabitOp true (.err "network")).consoleErrors ≠ []
    ∧ (toggleCompletionOp true (.err "network")).consoleErrors ≠ [] :=
  ⟨(failures_logged_not_thrown true (.err "network")).1.1,
   ((failures_logged_not_thrown true (.err "network")).2.2.2 "network" rfl).1,
   ((failures_logged_not_thrown true (.err "network")).2.2.2 "network" rfl).2.1,
   ((failures_logged_not_thrown true (.err "network")).2.2.2 "network" rfl).2.2⟩

/-- C9: if a habit's completion record stores only `true` values, so does the
record after any toggle; toggling a completed date removes its key outright;
create starts the record empty; and under the invariant a date key is present
exactly when the date reads as completed. -/
theorem completions_store_only_true (h : Habit) (t : String)
    (hinv : ∀ p ∈ h.completions, p.2 = true) :
    (∀ p ∈ (toggleCompletion t h).completions, p.2 = true)
    ∧ (completionStatusFor h t = true →
        ∀ p ∈ (toggleCompletion t h).completions, p.1 ≠ t)
    ∧ (∀ freshId now name order,
        (createHabit freshId now name order).completions = [])
    ∧ (∀ d, completionStatusFor h d = true
        ↔ ∃ p ∈ h.completions, p.1 = d) := by
  refine ⟨?_, ?_, fun _ _ _ _ => rfl, ?_⟩
  · intro p hp
    cases hs : completionStatusFor h t with
    | true =>
        rw [toggleCompletion] at hp
        simp only [hs, if_true] at hp
        exact hinv p (mem_objDelete t h.completions p hp).1
    | false =>
        rw [toggleCompletion] at hp
        simp only [hs] at hp
        rcases mem_objSet t true h.completions p hp with hpe | hpm
        · rw [hpe]
        · exact hinv p hpm
  · intro hs p hp
    rw [toggleCompletion] at hp
    simp only [hs, if_true] at hp
    exact (mem_objDelete t h.completions p hp).2
  · intro d
    constructor
    · intro hs
      have hob : objGet d h.completions = some true := by
        unfold completionStatusFor at hs
        cases ho : objGet d h.completions with
        | none => rw [ho] at hs; cases hs
        | some b => rw [ho] at hs; simp at hs; rw [hs]
      exact ⟨(d, true), objGet_mem d h.completions true hob, rfl⟩
    · rintro ⟨p, hp, hpd⟩
      have hne : objGet d h.completions ≠ none := hpd ▸ objGet_isSome_of_mem h.completions p hp
      cases ho : objGet d h.completions with
      | none => exact absurd ho hne
      | some b =>
          have hb : b = true := hinv (d, b) (objGet_mem d h.completions b ho)
          unfold completionStatusFor
          rw [ho, hb]
          rfl

/-- C9 witness: the habit completed on 2024-01-01 and 2024-01-02 satisfies
the only-`true` invariant, and its 2024-01-01 key reads back as completed. -/
theorem completions_store_only_true_witness :
    completionStatusFor invHabit "2024-01-01" = true :=
  ((completions_store_only_true invHabit "2024-01-02" (by decide)).2.2.2
      "2024-01-01").mpr ⟨("2024-01-01", true), by decide, rfl⟩

/-- C10: a toggle only ever targets today's date — the status of every other
date is unchanged — and `HabitItem.handleToggle` does nothing at all when the
selected date is not today. -/
theorem toggle_targets_today_only :
    (∀ (h : Habit) (today d : String), d ≠ today →
        completionStatusFor (toggleCompletion today h) d
          = completionStatusFor h d)
    ∧ (∀ (selectedDate today : String) (h : Habit), selectedDate ≠ today →
        handleToggle selectedDate today h = h) := by
  constructor
  · exact fun h today d hd => status_toggle_ne today d h hd
  · intro sel today h hst
    have hed : isEditable sel today = false := by
      simp [isEditable, isSelectedDateToday, hst]
    simp [handleToggle, hed]

/-- C10 witness: with today 2024-01-03, toggling leaves 2024-01-01's status
alone, and a toggle attempted with 2024-01-02 selected is a no-op. -/
theorem toggle_targets_today_only_witness :
    completionStatusFor (toggleCompletion "2024-01-03" invHabit) "2024-01-01"
        = completionStatusFor invHabit "2024-01-01"
    ∧ handleToggle "2024-01-02" "2024-01-03" invHabit = invHabit :=
  ⟨toggle_targets_today_only.1 invHabit "2024-01-03" "2024-01-01" (by decide),
   toggle_targets_today_only.2 "2024-01-02" "2024-01-03" invHabit (by decide)⟩

end HabitForge

